import Mathlib

/-!
Verification of the tugger packaging pipeline engine.

This file gives a shallow embedding, in Lean, of the core of the `tugger`
repository: the filesystem path model used by manifest construction
(`src/starlark/mod.rs`), the Debian `.deb` archive builders
(`src/debian.rs`), the pipeline execution engine (`src/starlark/eval.rs`),
the glob resolver (`src/glob.rs`, `resolve_include_exclude`), and the
script-value boolean conversions (`src/starlark/values.rs`).

Filesystem reads, executable-bit queries and glob expansion are effects
performed by the Rust code through the standard library; here they are
modelled as explicit oracle structures (`DebFS`, `GlobFS`) passed to each
function, so that every embedded function is a pure, executable Lean
definition.  The external `ar` and `tar` crates serialize member headers
and data to bytes; they are injective serializers, so archives are
modelled at the member level (`ArMember`, `TarEntry`): two archives are
byte-identical iff their member lists are equal.
-/

set_option autoImplicit false

namespace Tugger

/-! ## Path model

Rust `PathBuf` values are modelled as an absoluteness flag plus a list of
normal components.  `parsePath` mirrors `PathBuf::from` on Unix for paths
made of normal components: a leading `/` marks the path absolute, empty
components collapse.  `display` mirrors `Path::display`. -/

structure RPath where
  absolute : Bool
  components : List String
deriving DecidableEq, Repr

/-- Model of `str::starts_with` applied to the character `/`. -/
def startsWithSlash (s : String) : Bool :=
  match s.data with
  | [] => false
  | c :: _ => c = '/'

/-- Splitting on `/`, accumulating the current component in reverse. -/
def splitSlashAux : List Char → List Char → List String
  | [], acc => [String.mk acc.reverse]
  | c :: rest, acc =>
    if c = '/' then String.mk acc.reverse :: splitSlashAux rest []
    else splitSlashAux rest (c :: acc)

def parsePath (s : String) : RPath :=
  ⟨startsWithSlash s, (splitSlashAux s.data []).filter (fun c => c ≠ "")⟩

def RPath.display (p : RPath) : String :=
  (if p.absolute then "/" else "") ++ String.intercalate "/" p.components

/-- Model of Rust `Path::strip_prefix`: component-wise removal of a leading
root, treating the root directory marker as a component.  Returns `none`
when the path is not a descendant of the root. -/
def stripRoot (p root : RPath) : Option RPath :=
  if root.absolute then
    if p.absolute ∧ root.components.isPrefixOf p.components then
      some ⟨false, p.components.drop root.components.length⟩
    else
      none
  else if root.components = [] then
    some p
  else if p.absolute = false ∧ root.components.isPrefixOf p.components then
    some ⟨false, p.components.drop root.components.length⟩
  else
    none

/-- Model of Rust `Path::join`: an absolute right operand replaces the left
operand entirely. -/
def joinPath (a b : RPath) : RPath :=
  if b.absolute then b else ⟨a.absolute, a.components ++ b.components⟩

/-! ## Bytes and strings -/

/-- UTF-8 encoding of one character, as byte values. -/
def charUtf8 (c : Char) : List Nat :=
  let n := c.toNat
  if n < 128 then [n]
  else if n < 2048 then [192 + n / 64, 128 + n % 64]
  else if n < 65536 then [224 + n / 4096, 128 + n / 64 % 64, 128 + n % 64]
  else [240 + n / 262144, 128 + n / 4096 % 64, 128 + n / 64 % 64, 128 + n % 64]

/-- UTF-8 bytes of a string (Rust `str::as_bytes`). -/
def strBytes (s : String) : List Nat :=
  s.data.foldr (fun c acc => charUtf8 c ++ acc) []

/-- Rust `u8::to_ascii_lowercase`: map byte values of ASCII uppercase
letters to the corresponding lowercase letters, leave all else unchanged. -/
def asciiLower (b : Nat) : Nat :=
  if 65 ≤ b ∧ b ≤ 90 then b + 32 else b

/-! ## MD5

Executable model of the MD5 digest (RFC 1321), used by `make_md5sums` via
the `md5` crate.  All words are `Nat` reduced mod `2 ^ 32`. -/

def md5K : List Nat :=
  [0xd76aa478, 0xe8c7b756, 0x242070db, 0xc1bdceee,
   0xf57c0faf, 0x4787c62a, 0xa8304613, 0xfd469501,
   0x698098d8, 0x8b44f7af, 0xffff5bb1, 0x895cd7be,
   0x6b901122, 0xfd987193, 0xa679438e, 0x49b40821,
   0xf61e2562, 0xc040b340, 0x265e5a51, 0xe9b6c7aa,
   0xd62f105d, 0x02441453, 0xd8a1e681, 0xe7d3fbc8,
   0x21e1cde6, 0xc33707d6, 0xf4d50d87, 0x455a14ed,
   0xa9e3e905, 0xfcefa3f8, 0x676f02d9, 0x8d2a4c8a,
   0xfffa3942, 0x8771f681, 0x6d9d6122, 0xfde5380c,
   0xa4beea44, 0x4bdecfa9, 0xf6bb4b60, 0xbebfbc70,
   0x289b7ec6, 0xeaa127fa, 0xd4ef3085, 0x04881d05,
   0xd9d4d039, 0xe6db99e5, 0x1fa27cf8, 0xc4ac5665,
   0xf4292244, 0x432aff97, 0xab9423a7, 0xfc93a039,
   0x655b59c3, 0x8f0ccc92, 0xffeff47d, 0x85845dd1,
   0x6fa87e4f, 0xfe2ce6e0, 0xa3014314, 0x4e0811a1,
   0xf7537e82, 0xbd3af235, 0x2ad7d2bb, 0xeb86d391]

def md5S : List Nat :=
  [7, 12, 17, 22, 7, 12, 17, 22, 7, 12, 17, 22, 7, 12, 17, 22,
   5, 9, 14, 20, 5, 9, 14, 20, 5, 9, 14, 20, 5, 9, 14, 20,
   4, 11, 16, 23, 4, 11, 16, 23, 4, 11, 16, 23, 4, 11, 16, 23,
   6, 10, 15, 21, 6, 10, 15, 21, 6, 10, 15, 21, 6, 10, 15, 21]

/-- Rotate a 32-bit word left by `n` bits. -/
def rotl32 (x n : Nat) : Nat :=
  ((x <<< n) % 4294967296) + (x >>> (32 - n))

/-- Little-endian byte decomposition, `k` bytes. -/
def leBytes : Nat → Nat → List Nat
  | 0, _ => []
  | k + 1, n => (n % 256) :: leBytes k (n / 256)

/-- Group a 64-byte chunk into 16 little-endian 32-bit words. -/
def chunkWords : List Nat → List Nat
  | b0 :: b1 :: b2 :: b3 :: rest =>
      (b0 + 256 * b1 + 65536 * b2 + 16777216 * b3) :: chunkWords rest
  | _ => []

/-- MD5 padding: append `0x80`, zero bytes to 56 mod 64, then the 64-bit
little-endian bit length. -/
def md5Pad (msg : List Nat) : List Nat :=
  let len := msg.length
  let z := (119 - len % 64) % 64
  msg ++ [128] ++ List.replicate z 0 ++ leBytes 8 (len * 8)

/-- Split a byte list into 64-byte chunks, with explicit fuel so the
recursion is structural (the fuel `l.length` always suffices, as every
step consumes at least one byte). -/
def md5ChunksFuel : Nat → List Nat → List (List Nat)
  | 0, _ => []
  | _, [] => []
  | fuel + 1, b :: rest => ((b :: rest).take 64) :: md5ChunksFuel fuel (rest.drop 63)

/-- Split a byte list into 64-byte chunks. -/
def md5Chunks (l : List Nat) : List (List Nat) :=
  md5ChunksFuel l.length l

/-- The MD5 nonlinear round functions. -/
def md5F (i b c d : Nat) : Nat :=
  if i < 16 then (b &&& c) ||| ((b ^^^ 4294967295) &&& d)
  else if i < 32 then (d &&& b) ||| ((d ^^^ 4294967295) &&& c)
  else if i < 48 then b ^^^ c ^^^ d
  else c ^^^ (b ||| (d ^^^ 4294967295))

/-- The MD5 message-word index schedule. -/
def md5G (i : Nat) : Nat :=
  if i < 16 then i
  else if i < 32 then (5 * i + 1) % 16
  else if i < 48 then (3 * i + 5) % 16
  else (7 * i) % 16

/-- One MD5 round on state `(a, b, c, d)`. -/
def md5Round (m : List Nat) (st : Nat × Nat × Nat × Nat) (i : Nat) :
    Nat × Nat × Nat × Nat :=
  let a := st.1
  let b := st.2.1
  let c := st.2.2.1
  let d := st.2.2.2
  let f := (md5F i b c d + a + md5K.getD i 0 + m.getD (md5G i) 0) % 4294967296
  (d, (b + rotl32 f (md5S.getD i 0)) % 4294967296, b, c)

/-- Process one 64-byte chunk. -/
def md5ProcessChunk (st : Nat × Nat × Nat × Nat) (chunk : List Nat) :
    Nat × Nat × Nat × Nat :=
  let m := chunkWords chunk
  let r := (List.range 64).foldl (md5Round m) st
  ((st.1 + r.1) % 4294967296,
   (st.2.1 + r.2.1) % 4294967296,
   (st.2.2.1 + r.2.2.1) % 4294967296,
   (st.2.2.2 + r.2.2.2) % 4294967296)

/-- The MD5 digest of a byte sequence: 16 bytes. -/
def md5 (msg : List Nat) : List Nat :=
  let st := (md5Chunks (md5Pad msg)).foldl md5ProcessChunk
    (1732584193, 4023233417, 2562383102, 271733878)
  leBytes 4 st.1 ++ leBytes 4 st.2.1 ++ leBytes 4 st.2.2.1 ++ leBytes 4 st.2.2.2

/-! ## File manifests

`FileManifest` (`src/starlark/values.rs`) wraps a `BTreeMap<String, PathBuf>`
mapping archive-relative keys to absolute source paths.  The map is modelled
as a key-sorted association list; `fmInsert` is `BTreeMap::insert` (keeps
ascending key order, overwrites an equal key), so list order is exactly the
map's iteration order. -/

structure FileManifest where
  files : List (String × RPath)
deriving DecidableEq, Repr

/-- `BTreeMap::insert` on the sorted association list model. -/
def fmInsert (k : String) (v : RPath) : List (String × RPath) → List (String × RPath)
  | [] => [(k, v)]
  | (k0, v0) :: rest =>
    if k < k0 then (k, v) :: (k0, v0) :: rest
    else if k = k0 then (k, v) :: rest
    else (k0, v0) :: fmInsert k v rest

/-! ## Debian package builder (`src/debian.rs`)

File reads and executable-bit queries are modelled by a `DebFS` oracle:
`read` is `std::fs::read` (`none` = I/O error), `isExec` is the
`is_executable` check.  The `ar` and `tar` crates serialize headers plus
data injectively, so members are kept structured. -/

structure DebFS where
  read : RPath → Option (List Nat)
  isExec : RPath → Bool

structure TarEntry where
  path : String
  mode : Nat
  mtime : Nat
  size : Nat
  data : List Nat
deriving DecidableEq, Repr

inductive ArData where
  | raw (bytes : List Nat)
  | tarData (entries : List TarEntry)
deriving DecidableEq, Repr

structure ArMember where
  name : String
  mode : Nat
  mtime : Nat
  uid : Nat
  gid : Nat
  data : ArData
deriving DecidableEq, Repr

/-- Embedding of `make_md5sums` (`src/debian.rs` lines 126-140): for each
manifest entry in order, write `digest.to_ascii_lowercase()` — the raw
16 digest bytes with ASCII uppercase byte values lowercased — then two
spaces, the relative path, and a newline. -/
def makeMd5sums (fs : DebFS) (files : List (String × RPath)) : Except String (List Nat) :=
  match files with
  | [] => Except.ok []
  | (rel, src) :: rest =>
    match fs.read src with
    | none => Except.error ("io error reading " ++ src.display)
    | some content =>
      match makeMd5sums fs rest with
      | Except.error e => Except.error e
      | Except.ok tail =>
        Except.ok ((md5 content).map asciiLower ++ [32, 32] ++ strBytes rel ++ [10] ++ tail)

/-- Embedding of `build_control_tar` (`src/debian.rs` lines 81-123).  The
rendered control file bytes are a parameter (`serialize_control_file`
delegates rendering to the external `debian` crate). -/
def buildControlTar (controlData : List Nat) (fs : DebFS) (files : List (String × RPath))
    (mtime : Nat) : Except String (List TarEntry) :=
  match makeMd5sums fs files with
  | Except.error e => Except.error ("unable to compute md5sums: " ++ e)
  | Except.ok sums =>
    Except.ok [⟨"control", 0o644, mtime, controlData.length, controlData⟩,
               ⟨"md5sums", 0o644, mtime, sums.length, sums⟩]

/-- Embedding of `build_data_tar` (`src/debian.rs` lines 161-201): one tar
entry per manifest entry in order, path prefixed with `./`, mode by the
executable bit, content the full file bytes; no directory entries. -/
def buildDataTar (fs : DebFS) (files : List (String × RPath)) (mtime : Nat) :
    Except String (List TarEntry) :=
  match files with
  | [] => Except.ok []
  | (rel, src) :: rest =>
    match fs.read src with
    | none => Except.error ("error reading file " ++ src.display)
    | some content =>
      match buildDataTar fs rest mtime with
      | Except.error e => Except.error e
      | Except.ok tail =>
        Except.ok (⟨"./" ++ rel,
                    if fs.isExec src then 0o755 else 0o644,
                    mtime, content.length, content⟩ :: tail)

/-- Embedding of `build_deb` (`src/debian.rs` lines 19-78).  `systemTime` is
the value of `SystemTime::now()` captured once at the start of the build;
every mtime field below is set from this single capture. -/
def buildDeb (fs : DebFS) (controlData : List Nat) (files : FileManifest)
    (systemTime : Nat) : Except String (List ArMember) :=
  match buildControlTar controlData fs files.files systemTime with
  | Except.error e => Except.error e
  | Except.ok controlTar =>
    match buildDataTar fs files.files systemTime with
    | Except.error e => Except.error e
    | Except.ok dataTar =>
      Except.ok
        [⟨"debian-binary", 0o644, systemTime, 0, 0, ArData.raw [50, 46, 48, 10]⟩,
         ⟨"control.tar", 0o644, systemTime, 0, 0, ArData.tarData controlTar⟩,
         ⟨"data.tar", 0o644, systemTime, 0, 0, ArData.tarData dataTar⟩]

/-! ## Specification-side md5sums rendering

A second definition of the md5sums payload, written from the spec's words
("lowercase-hex MD5 of the file content, two spaces, archive-relative
path, newline") for comparison with the embedded `makeMd5sums`. -/

/-- Byte value of the lowercase hex character for a nibble. -/
def hexDigitChar (n : Nat) : Nat :=
  if n < 10 then 48 + n else 87 + n

/-- Lowercase hexadecimal rendering of a byte list, as bytes. -/
def hexBytes (bs : List Nat) : List Nat :=
  bs.foldr (fun b acc => hexDigitChar (b / 16) :: hexDigitChar (b % 16) :: acc) []

/-- One md5sums line as the spec describes it. -/
def specMd5Line (content : List Nat) (rel : String) : List Nat :=
  hexBytes (md5 content) ++ [32, 32] ++ strBytes rel ++ [10]

/-! ## Pipeline engine (`src/starlark/eval.rs`)

Steps embed a `TarArchive`; executing one performs filesystem effects via
the tar builder, modelled as a collaborator oracle
`runTar : TarArchive → RPath → Except String Unit`. -/

structure TarArchive where
  destName : String
  fileManifest : FileManifest
deriving DecidableEq, Repr

inductive Step where
  | tarArchive (ta : TarArchive)
deriving DecidableEq, Repr

structure Pipeline where
  name : String
  distPath : RPath
  steps : List Step
deriving DecidableEq, Repr

/-- The step dispatch of `execute_raw_pipeline`: each step variant is sent
to its builder collaborator. -/
def runStep (runTar : TarArchive → RPath → Except String Unit) (dist : RPath) :
    Step → Except String Unit
  | Step.tarArchive ta => runTar ta dist

/-- The step loop of `execute_raw_pipeline` (`src/starlark/eval.rs` lines
60-73): run steps in declared order, return the first error unchanged. -/
def runStepList (runTar : TarArchive → RPath → Except String Unit) (dist : RPath) :
    List Step → Except String Unit
  | [] => Except.ok ()
  | s :: rest =>
    match runStep runTar dist s with
    | Except.ok _ => runStepList runTar dist rest
    | Except.error e => Except.error e

/-- Embedding of `execute_raw_pipeline`. -/
def executeRawPipeline (runTar : TarArchive → RPath → Except String Unit)
    (p : Pipeline) : Except String Unit :=
  runStepList runTar p.distPath p.steps

/-- Embedding of `execute_all_pipelines` (`src/starlark/eval.rs` lines
23-38): iterate the registry in order, propagating the first pipeline
failure via `?`. -/
def executeAllPipelines (runTar : TarArchive → RPath → Except String Unit) :
    List Pipeline → Except String Unit
  | [] => Except.ok ()
  | p :: rest =>
    match executeRawPipeline runTar p with
    | Except.ok _ => executeAllPipelines runTar rest
    | Except.error e => Except.error e

/-- Embedding of `execute_pipeline` (`src/starlark/eval.rs` lines 41-58):
linear scan, execute the first name match, else the not-found error. -/
def executePipelineNamed (runTar : TarArchive → RPath → Except String Unit)
    (nm : String) : List Pipeline → Except String Unit
  | [] => Except.error ("could not find pipeline " ++ nm)
  | p :: rest =>
    if p.name = nm then executeRawPipeline runTar p
    else executePipelineNamed runTar nm rest

/-! ## Script values (`src/starlark/mod.rs`, `src/starlark/values.rs`)

A minimal model of the dynamically typed Starlark `Value`: the variants the
embedded functions dispatch on via `get_type()`. -/

inductive SValue where
  | none
  | str (s : String)
  | int (n : Int)
  | list (xs : List SValue)
  | sourceFile (path : RPath)

def SValue.getType : SValue → String
  | SValue.none => "NoneType"
  | SValue.str _ => "string"
  | SValue.int _ => "int"
  | SValue.list _ => "list"
  | SValue.sourceFile _ => "SourceFile"

/-- The `ValueError` variants raised by the embedded functions:
`ValueError::TypeNotX` and `ValueError::Runtime(RuntimeError)`. -/
inductive VError where
  | typeNotX (objectType op : String)
  | runtime (code message label : String)
deriving DecidableEq, Repr

/-- Result of `file_manifest_from_files`: distinguishes a returned error
value from a Rust panic (`unwrap` on a failed canonicalization). -/
inductive FMOutcome where
  | ok (m : FileManifest)
  | err (e : VError)
  | panicked (msg : String)
deriving DecidableEq, Repr

/-- Prefix application of `file_manifest_from_files`: when a prefix is
given, it is path-joined in front of the stripped relative path. -/
def applyPfx (pfx : Option String) (rel : RPath) : RPath :=
  match pfx with
  | some pf => joinPath (parsePath pf) rel
  | Option.none => rel

/-- Element loop of `file_manifest_from_files` (`src/starlark/mod.rs` lines
400-428).  `canon` models `Path::canonicalize` (`none` = I/O failure, on
which the source calls `.unwrap()` and panics). -/
def fmFromFilesGo (canon : RPath → Option RPath) (root : RPath)
    (pfx : Option String) : List SValue → FileManifest → FMOutcome
  | [], m => FMOutcome.ok m
  | v :: rest, m =>
    match v with
    | SValue.sourceFile p =>
      match stripRoot p root with
      | Option.none =>
        FMOutcome.err (VError.runtime "bad_relative_path"
          (p.display ++ " is not relative to " ++ root.display) "relative_to")
      | some rel =>
        match canon p with
        | Option.none => FMOutcome.panicked "called unwrap on a None value"
        | some cp =>
          fmFromFilesGo canon root pfx rest ⟨fmInsert (applyPfx pfx rel).display cp m.files⟩
    | v => FMOutcome.err (VError.typeNotX v.getType "SourceFile")

/-- Embedding of `file_manifest_from_files` (`src/starlark/mod.rs` lines
368-429): argument type dispatch, then the element loop. -/
def fileManifestFromFiles (canon : RPath → Option RPath) (cwd : String)
    (files relativeTo pfx : SValue) : FMOutcome :=
  match files with
  | SValue.list xs =>
    let rootE : Except VError RPath :=
      match relativeTo with
      | SValue.none => Except.ok (parsePath cwd)
      | SValue.str s => Except.ok (parsePath s)
      | v => Except.error (VError.typeNotX v.getType "str")
    match rootE with
    | Except.error e => FMOutcome.err e
    | Except.ok root =>
      let pfxE : Except VError (Option String) :=
        match pfx with
        | SValue.none => Except.ok Option.none
        | SValue.str s => Except.ok (some s)
        | v => Except.error (VError.typeNotX v.getType "str")
      match pfxE with
      | Except.error e => FMOutcome.err e
      | Except.ok po => fmFromFilesGo canon root po xs ⟨[]⟩
  | v => FMOutcome.err (VError.typeNotX v.getType "list")

/-! ## Glob resolver (`src/glob.rs`, `src/starlark/mod.rs` lines 178-246)

`GlobFS.glob` models `glob::glob` applied to a search string (already
restricted to successful expansion, which the source unwraps);
`GlobFS.isFile` models `Path::is_file`. -/

structure GlobFS where
  glob : String → List RPath
  isFile : RPath → Bool

/-- Embedding of `evaluate_glob` (`src/glob.rs` lines 7-25): a pattern
starting with `/` is searched as given, any other is searched relative to
`cwd`; only regular files are kept. -/
def evaluateGlob (fs : GlobFS) (cwd pattern : String) : List RPath :=
  let search := if startsWithSlash pattern then pattern else cwd ++ "/" ++ pattern
  (fs.glob search).filter fs.isFile

/-- Include loop of `resolve_include_exclude`: union all include matches
into the working set, failing on a non-string element. -/
def globInsertAll (fs : GlobFS) (cwd : String) :
    List SValue → Finset RPath → Except VError (Finset RPath)
  | [], acc => Except.ok acc
  | SValue.str s :: rest, acc =>
    globInsertAll fs cwd rest ((evaluateGlob fs cwd s).foldl (fun a p => insert p a) acc)
  | v :: _, _ => Except.error (VError.typeNotX v.getType "string")

/-- Exclude loop of `resolve_include_exclude`: subtract all exclude matches
from the working set, failing on a non-string element. -/
def globRemoveAll (fs : GlobFS) (cwd : String) :
    List SValue → Finset RPath → Except VError (Finset RPath)
  | [], acc => Except.ok acc
  | SValue.str s :: rest, acc =>
    globRemoveAll fs cwd rest ((evaluateGlob fs cwd s).foldl (fun a p => Finset.erase a p) acc)
  | v :: _, _ => Except.error (VError.typeNotX v.getType "string")

/-- Embedding of `resolve_include_exclude` (`src/starlark/mod.rs` lines
178-246): expand and union all includes first, then expand and subtract
all excludes.  The result is the deduplicated working set (`HashSet`);
its iteration order into the Starlark list is unspecified. -/
def resolveIncludeExclude (fs : GlobFS) (cwd : String) (inc exc : SValue) :
    Except VError (Finset RPath) :=
  let afterInc : Except VError (Finset RPath) :=
    match inc with
    | SValue.str s => globInsertAll fs cwd [SValue.str s] ∅
    | SValue.list xs => globInsertAll fs cwd xs ∅
    | v => Except.error (VError.typeNotX v.getType "string")
  match afterInc with
  | Except.error e => Except.error e
  | Except.ok acc =>
    match exc with
    | SValue.none => Except.ok acc
    | SValue.str s => globRemoveAll fs cwd [SValue.str s] acc
    | SValue.list xs => globRemoveAll fs cwd xs acc
    | v => Except.error (VError.typeNotX v.getType "string")

/-! ## Boolean conversion of native values (`src/starlark/values.rs`)

Each registered native type's `to_bool` implementation returns the constant
`false` (lines 40-42, 80-82, 159-161, 209-211). -/

structure SourceFileV where
  path : RPath
deriving DecidableEq, Repr

def SourceFileV.toBool (_ : SourceFileV) : Bool := false

def FileManifest.toBool (_ : FileManifest) : Bool := false

def TarArchive.toBool (_ : TarArchive) : Bool := false

def Pipeline.toBool (_ : Pipeline) : Bool := false

/-! ## Concrete fixtures

Closed sample inputs used to evaluate the embedded functions at concrete
points. -/

/-- Substring test on character lists. -/
def hasSub (needle : List Char) : List Char → Bool
  | [] => needle.isEmpty
  | c :: t => needle.isPrefixOf (c :: t) || hasSub needle t

def wSrcPath : RPath := ⟨true, ["src", "a.txt"]⟩

/-- Filesystem where every path reads as the two bytes of "hi". -/
def wDebFS : DebFS := ⟨fun _ => some [104, 105], fun _ => false⟩

/-- Filesystem agreeing with `wDebFS` on `wSrcPath` only. -/
def wDebFS2 : DebFS := ⟨fun p => if p = wSrcPath then some [104, 105] else none, fun _ => false⟩

def wManifest : FileManifest := ⟨[("a.txt", wSrcPath)]⟩

def wControl : List Nat := [99, 99, 10]

/-- The members `build_deb` produces from `wDebFS`, `wControl`, `wManifest`
at captured time 1000. -/
def wMembers : List ArMember :=
  [⟨"debian-binary", 0o644, 1000, 0, 0, ArData.raw [50, 46, 48, 10]⟩,
   ⟨"control.tar", 0o644, 1000, 0, 0, ArData.tarData
      [⟨"control", 0o644, 1000, 3, [99, 99, 10]⟩,
       ⟨"md5sums", 0o644, 1000, 24,
        [105, 246, 138, 92, 132, 147, 236, 44, 11, 244, 137, 130, 28, 33, 252, 59,
         32, 32, 97, 46, 116, 120, 116, 10]⟩]⟩,
   ⟨"data.tar", 0o644, 1000, 0, 0, ArData.tarData
      [⟨"./a.txt", 0o644, 1000, 2, [104, 105]⟩]⟩]

/-- Filesystem where every file is empty. -/
def c2FS : DebFS := ⟨fun _ => some [], fun _ => false⟩

def c2Manifest : List (String × RPath) := [("a.txt", wSrcPath)]

def wDist : RPath := ⟨true, ["dist"]⟩

/-- Collaborator that fails on the destination name "bad.tar". -/
def w5Run : TarArchive → RPath → Except String Unit :=
  fun ta _ => if ta.destName = "bad.tar" then Except.error "boom" else Except.ok ()

def w5GoodStep : Step := Step.tarArchive ⟨"good.tar", ⟨[]⟩⟩

def w5BadStep : Step := Step.tarArchive ⟨"bad.tar", ⟨[]⟩⟩

def w5Ok : Pipeline := ⟨"ok", wDist, [w5GoodStep]⟩

def w5Fail : Pipeline := ⟨"fail", wDist, [w5BadStep]⟩

def w5After : Pipeline := ⟨"after", wDist, []⟩

/-- A pipeline named "zzz" whose only step fails with the error "boom". -/
def cxPipeline : Pipeline := ⟨"zzz", wDist, [w5BadStep]⟩

/-- Collaborator that fails on the destination name "second". -/
def w6Run : TarArchive → RPath → Except String Unit :=
  fun ta _ => if ta.destName = "second" then Except.error "second" else Except.ok ()

def w6Build : Pipeline := ⟨"build", wDist, []⟩

def w6Rel1 : Pipeline := ⟨"release", wDist, []⟩

def w6Rel2 : Pipeline := ⟨"release", wDist, [Step.tarArchive ⟨"second", ⟨[]⟩⟩]⟩

/-- Canonicalization oracle that succeeds everywhere, resolving to itself. -/
def canonId : RPath → Option RPath := fun p => some p

def w7Good : RPath := ⟨true, ["root", "a", "b.txt"]⟩

def w7Outside : RPath := ⟨true, ["elsewhere", "b.txt"]⟩

/-- Canonicalization oracle failing exactly on `w7Outside`. -/
def w9Canon : RPath → Option RPath := fun p => if p = w7Outside then none else some p

def w8aP : RPath := ⟨true, ["cwd", "a.txt"]⟩

def w8bP : RPath := ⟨true, ["cwd", "b.txt"]⟩

def w8skipP : RPath := ⟨true, ["cwd", "skip.txt"]⟩

/-- Glob oracle for a directory `/cwd` holding a.txt, b.txt, skip.txt, c.bin. -/
def w8FS : GlobFS :=
  ⟨fun s =>
    if s = "/cwd/*.txt" then [w8aP, w8bP, w8skipP]
    else if s = "/cwd/skip.txt" then [w8skipP]
    else [],
   fun _ => true⟩

instance {ε α : Type} [DecidableEq ε] [DecidableEq α] : DecidableEq (Except ε α) := fun a b =>
  match a, b with
  | Except.ok x, Except.ok y =>
    if h : x = y then Decidable.isTrue (by rw [h])
    else Decidable.isFalse (by intro hh; cases hh; exact h rfl)
  | Except.ok _, Except.error _ => Decidable.isFalse (by intro hh; cases hh)
  | Except.error _, Except.ok _ => Decidable.isFalse (by intro hh; cases hh)
  | Except.error x, Except.error y =>
    if h : x = y then Decidable.isTrue (by rw [h])
    else Decidable.isFalse (by intro hh; cases hh; exact h rfl)

/-- C10: every `SourceFile`, `FileManifest`, `TarArchive` and `Pipeline`
value exposed to scripts converts to boolean false in a script truth
context regardless of its content, so guarding on such a value never takes
the true branch. -/
theorem native_values_always_falsy :
    ∀ (sf : SourceFileV) (fm : FileManifest) (ta : TarArchive) (p : Pipeline),
      sf.toBool = false ∧ fm.toBool = false ∧ ta.toBool = false ∧ p.toBool = false :=
  fun _ _ _ _ => ⟨rfl, rfl, rfl, rfl⟩

/-- C6: `execute_pipeline` scans the registry linearly in declaration order
and executes exactly the first pipeline whose name equals the requested
name (later pipelines with the same name are never reached); if none
matches it fails with the not-found error naming the pipeline. -/
theorem execute_pipeline_first_match (runTar : TarArchive → RPath → Except String Unit)
    (nm : String) :
    (∀ ps : List Pipeline, executePipelineNamed runTar nm ps =
      match ps.find? (fun p => p.name == nm) with
      | some p => executeRawPipeline runTar p
      | Option.none => Except.error ("could not find pipeline " ++ nm)) ∧
    (∀ (before : List Pipeline) (p : Pipeline) (rest : List Pipeline),
      p.name = nm → (∀ q ∈ before, q.name ≠ nm) →
      executePipelineNamed runTar nm (before ++ p :: rest) = executeRawPipeline runTar p) := by
  constructor
  · intro ps
    induction ps with
    | nil => rfl
    | cons p tail ih =>
      by_cases h : p.name = nm
      · rw [List.find?_cons_of_pos _ (by simp [h])]
        simp [executePipelineNamed, h]
      · rw [List.find?_cons_of_neg _ (by simp [h])]
        simp [executePipelineNamed, h, ih]
  · intro before p rest hp hb
    induction before with
    | nil => simp [executePipelineNamed, hp]
    | cons q tail ih =>
      have hq : q.name ≠ nm := hb q (List.mem_cons_self _ _)
      simpa [executePipelineNamed, hq] using ih (fun r hr => hb r (List.mem_cons_of_mem _ hr))

theorem execute_pipeline_first_match_witness :
    (w6Rel1.name = "release" ∧ ∀ q ∈ [w6Build], q.name ≠ "release") ∧
    executePipelineNamed w6Run "release" [w6Build, w6Rel1, w6Rel2] =
      executeRawPipeline w6Run w6Rel1 ∧
    executePipelineNamed w6Run "release" [w6Build, w6Rel1, w6Rel2] = Except.ok () ∧
    executeRawPipeline w6Run w6Rel2 = Except.error "second" :=
  ⟨⟨rfl, by decide⟩,
   (execute_pipeline_first_match w6Run "release").2 [w6Build] w6Rel1 [w6Rel2] rfl (by decide),
   by decide, by decide⟩

/-- C5 (amended): `execute_all_pipelines` iterates the registry in
declaration order and aborts at the first pipeline failure, propagating
that pipeline's error unchanged (the pipeline name is logged, not attached
to the error); within a pipeline, steps run in declared order, each
dispatched to its builder collaborator, and the first failing step's error
is returned immediately, aborting the remaining steps. -/
theorem pipeline_failfast_error_unchanged (runTar : TarArchive → RPath → Except String Unit) :
    (∀ (before : List Pipeline) (p : Pipeline) (rest : List Pipeline) (e : String),
      (∀ q ∈ before, executeRawPipeline runTar q = Except.ok ()) →
      executeRawPipeline runTar p = Except.error e →
      executeAllPipelines runTar (before ++ p :: rest) = Except.error e) ∧
    (∀ (dist : RPath) (before : List Step) (s : Step) (rest : List Step) (e : String),
      (∀ q ∈ before, runStep runTar dist q = Except.ok ()) →
      runStep runTar dist s = Except.error e →
      runStepList runTar dist (before ++ s :: rest) = Except.error e) := by
  constructor
  · intro before p rest e hok hp
    induction before with
    | nil => simp [executeAllPipelines, hp]
    | cons q tail ih =>
      have hq := hok q (List.mem_cons_self _ _)
      simpa [executeAllPipelines, hq] using
        ih (fun r hr => hok r (List.mem_cons_of_mem _ hr))
  · intro dist before s rest e hok hs
    induction before with
    | nil => simp [runStepList, hs]
    | cons q tail ih =>
      have hq := hok q (List.mem_cons_self _ _)
      simpa [runStepList, hq] using
        ih (fun r hr => hok r (List.mem_cons_of_mem _ hr))

theorem pipeline_failfast_witness :
    ((∀ q ∈ [w5Ok], executeRawPipeline w5Run q = Except.ok ()) ∧
     executeRawPipeline w5Run w5Fail = Except.error "boom" ∧
     (∀ q ∈ [w5GoodStep], runStep w5Run wDist q = Except.ok ()) ∧
     runStep w5Run wDist w5BadStep = Except.error "boom") ∧
    executeAllPipelines w5Run [w5Ok, w5Fail, w5After] = Except.error "boom" ∧
    runStepList w5Run wDist [w5GoodStep, w5BadStep, w5GoodStep] = Except.error "boom" :=
  ⟨⟨by decide, by decide, by decide, by decide⟩,
   (pipeline_failfast_error_unchanged w5Run).1 [w5Ok] w5Fail [w5After] "boom"
     (by decide) (by decide),
   (pipeline_failfast_error_unchanged w5Run).2 wDist [w5GoodStep] w5BadStep [w5GoodStep] "boom"
     (by decide) (by decide)⟩

/-- C5 counterexample: the error of a failing pipeline is propagated by
`execute_all_pipelines` exactly as produced by the step; the pipeline's
name ("zzz" here) does not occur in the propagated error ("boom"), so the
error is not annotated with the pipeline name. -/
theorem execute_all_error_not_annotated :
    executeAllPipelines w5Run [cxPipeline] = Except.error "boom" ∧
    hasSub "zzz".toList "boom".toList = false := by
  exact ⟨by decide, by decide⟩

/-- C2: on the one-file manifest `c2Manifest` over an empty file,
`make_md5sums` emits the 16 raw MD5 digest bytes passed through ASCII
lowercasing (note byte 66, the letter B, becomes 98) instead of the 32
lowercase hexadecimal characters the md5sums format requires; the produced
content differs from the specified hex line. -/
theorem make_md5sums_raw_bytes_not_hex :
    md5 [] = [212, 29, 140, 217, 143, 0, 178, 4, 233, 128, 9, 152, 236, 248, 66, 126] ∧
    makeMd5sums c2FS c2Manifest =
      Except.ok [212, 29, 140, 217, 143, 0, 178, 4, 233, 128, 9, 152, 236, 248, 98, 126,
                 32, 32, 97, 46, 116, 120, 116, 10] ∧
    specMd5Line [] "a.txt" =
      [100, 52, 49, 100, 56, 99, 100, 57, 56, 102, 48, 48, 98, 50, 48, 52,
       101, 57, 56, 48, 48, 57, 57, 56, 101, 99, 102, 56, 52, 50, 55, 101,
       32, 32, 97, 46, 116, 120, 116, 10] ∧
    makeMd5sums c2FS c2Manifest ≠ Except.ok (specMd5Line [] "a.txt") := by
  exact ⟨by decide, by decide, by decide, by decide⟩

lemma buildControlTar_ok_inv {cd : List Nat} {fs : DebFS} {files : List (String × RPath)}
    {t : Nat} {ct : List TarEntry} (h : buildControlTar cd fs files t = Except.ok ct) :
    ∃ sums, makeMd5sums fs files = Except.ok sums ∧
      ct = [⟨"control", 0o644, t, cd.length, cd⟩, ⟨"md5sums", 0o644, t, sums.length, sums⟩] := by
  unfold buildControlTar at h
  cases hm : makeMd5sums fs files <;> rw [hm] at h
  · cases h
  · injection h with h2
    exact ⟨_, rfl, h2.symm⟩

lemma buildDeb_ok_inv {fs : DebFS} {cd : List Nat} {files : FileManifest} {t : Nat}
    {members : List ArMember} (h : buildDeb fs cd files t = Except.ok members) :
    ∃ sums dt, makeMd5sums fs files.files = Except.ok sums ∧
      buildDataTar fs files.files t = Except.ok dt ∧
      members =
        [⟨"debian-binary", 0o644, t, 0, 0, ArData.raw [50, 46, 48, 10]⟩,
         ⟨"control.tar", 0o644, t, 0, 0, ArData.tarData
            [⟨"control", 0o644, t, cd.length, cd⟩, ⟨"md5sums", 0o644, t, sums.length, sums⟩]⟩,
         ⟨"data.tar", 0o644, t, 0, 0, ArData.tarData dt⟩] := by
  unfold buildDeb at h
  cases hc : buildControlTar cd fs files.files t with
  | error e => rw [hc] at h; cases h
  | ok ct =>
    rw [hc] at h
    cases hd : buildDataTar fs files.files t with
    | error e => rw [hd] at h; cases h
    | ok dt =>
      rw [hd] at h
      obtain ⟨sums, hm, hct⟩ := buildControlTar_ok_inv hc
      subst hct
      injection h with h2
      exact ⟨sums, dt, hm, rfl, h2.symm⟩

lemma buildDataTar_ok_forall {fs : DebFS} {t : Nat} :
    ∀ {files : List (String × RPath)} {entries : List TarEntry},
    buildDataTar fs files t = Except.ok entries →
    List.Forall₂ (fun (kv : String × RPath) (e : TarEntry) =>
      e.path = "./" ++ kv.1 ∧
      e.mode = (if fs.isExec kv.2 then 0o755 else 0o644) ∧
      e.mtime = t ∧ fs.read kv.2 = some e.data ∧ e.size = e.data.length)
      files entries := by
  intro files
  induction files with
  | nil =>
    intro entries h
    unfold buildDataTar at h
    injection h with h2
    rw [← h2]
    exact List.Forall₂.nil
  | cons kv rest ih =>
    intro entries h
    obtain ⟨rel, src⟩ := kv
    unfold buildDataTar at h
    cases hr : fs.read src <;> rw [hr] at h
    · cases h
    · cases ht : buildDataTar fs rest t <;> rw [ht] at h
      · cases h
      · injection h with h2
        rw [← h2]
        exact List.Forall₂.cons ⟨rfl, rfl, rfl, hr, rfl⟩ (ih ht)

lemma buildDataTar_mtime {fs : DebFS} {t : Nat} :
    ∀ {files : List (String × RPath)} {entries : List TarEntry},
    buildDataTar fs files t = Except.ok entries → ∀ e ∈ entries, e.mtime = t := by
  intro files
  induction files with
  | nil =>
    intro entries h e he
    unfold buildDataTar at h
    injection h with h2
    rw [← h2] at he
    cases he
  | cons kv rest ih =>
    intro entries h e he
    obtain ⟨rel, src⟩ := kv
    unfold buildDataTar at h
    cases hr : fs.read src <;> rw [hr] at h
    · cases h
    · cases ht : buildDataTar fs rest t <;> rw [ht] at h
      · cases h
      · injection h with h2
        rw [← h2] at he
        cases he with
        | head => rfl
        | tail _ hmem => exact ih ht e hmem

lemma makeMd5sums_congr (fs fs2 : DebFS) :
    ∀ {files : List (String × RPath)},
    (∀ kv ∈ files, fs.read kv.2 = fs2.read kv.2) →
    makeMd5sums fs files = makeMd5sums fs2 files := by
  intro files
  induction files with
  | nil => intro _; rfl
  | cons kv rest ih =>
    intro h
    obtain ⟨rel, src⟩ := kv
    have h1 : fs.read src = fs2.read src := h (rel, src) (List.mem_cons_self _ _)
    have h2 := ih (fun kv hkv => h kv (List.mem_cons_of_mem _ hkv))
    simp only [makeMd5sums, h1, h2]

lemma buildDataTar_congr (fs fs2 : DebFS) (t : Nat) :
    ∀ {files : List (String × RPath)},
    (∀ kv ∈ files, fs.read kv.2 = fs2.read kv.2 ∧ fs.isExec kv.2 = fs2.isExec kv.2) →
    buildDataTar fs files t = buildDataTar fs2 files t := by
  intro files
  induction files with
  | nil => intro _; rfl
  | cons kv rest ih =>
    intro h
    obtain ⟨rel, src⟩ := kv
    have h1 := h (rel, src) (List.mem_cons_self _ _)
    have h2 := ih (fun kv hkv => h kv (List.mem_cons_of_mem _ hkv))
    simp only [buildDataTar, h1.1, h1.2, h2]

/-- C1: with the timestamp captured once at the start of the build as an
explicit parameter, `build_deb` is a function of the control bytes, the
manifest, the captured timestamp, and the contents and executable bits of
the manifest's files — two builds over filesystems agreeing on the
manifest's files produce identical archives — and, on success, all three
ar member headers carry mode `0o644`, uid and gid `0`, and the captured
mtime, while every nested tar entry of control.tar and data.tar carries
that same mtime. -/
theorem build_deb_deterministic_single_mtime :
    ∀ (fs fs2 : DebFS) (cd : List Nat) (files : FileManifest) (t : Nat),
    (∀ kv ∈ files.files, fs.read kv.2 = fs2.read kv.2 ∧ fs.isExec kv.2 = fs2.isExec kv.2) →
    buildDeb fs cd files t = buildDeb fs2 cd files t ∧
    (∀ members, buildDeb fs cd files t = Except.ok members →
      (∀ mem ∈ members, mem.mode = 0o644 ∧ mem.uid = 0 ∧ mem.gid = 0 ∧ mem.mtime = t) ∧
      (∀ mem ∈ members, ∀ es, mem.data = ArData.tarData es → ∀ e ∈ es, e.mtime = t)) := by
  intro fs fs2 cd files t h
  constructor
  · have hm := makeMd5sums_congr fs fs2 (fun kv hkv => (h kv hkv).1)
    have hd := buildDataTar_congr fs fs2 t h
    simp only [buildDeb, buildControlTar, hm, hd]
  · intro members hok
    obtain ⟨sums, dt, hm, hd, hmem⟩ := buildDeb_ok_inv hok
    subst hmem
    constructor
    · intro mem hmem
      simp only [List.mem_cons, List.not_mem_nil, or_false] at hmem
      rcases hmem with rfl | rfl | rfl
      · exact ⟨rfl, rfl, rfl, rfl⟩
      · exact ⟨rfl, rfl, rfl, rfl⟩
      · exact ⟨rfl, rfl, rfl, rfl⟩
    · intro mem hmem es hes e he
      simp only [List.mem_cons, List.not_mem_nil, or_false] at hmem
      rcases hmem with rfl | rfl | rfl
      · cases hes
      · injection hes with h2
        rw [← h2] at he
        simp only [List.mem_cons, List.not_mem_nil, or_false] at he
        rcases he with rfl | rfl
        · rfl
        · rfl
      · injection hes with h2
        rw [← h2] at he
        exact buildDataTar_mtime hd e he

theorem build_deb_deterministic_witness :
    (∀ kv ∈ wManifest.files, wDebFS.read kv.2 = wDebFS2.read kv.2 ∧
       wDebFS.isExec kv.2 = wDebFS2.isExec kv.2) ∧
    buildDeb wDebFS wControl wManifest 1000 = buildDeb wDebFS2 wControl wManifest 1000 ∧
    (∀ members, buildDeb wDebFS wControl wManifest 1000 = Except.ok members →
      (∀ mem ∈ members, mem.mode = 0o644 ∧ mem.uid = 0 ∧ mem.gid = 0 ∧ mem.mtime = 1000) ∧
      (∀ mem ∈ members, ∀ es, mem.data = ArData.tarData es → ∀ e ∈ es, e.mtime = 1000)) :=
  ⟨by decide,
   (build_deb_deterministic_single_mtime wDebFS wDebFS2 wControl wManifest 1000 (by decide)).1,
   (build_deb_deterministic_single_mtime wDebFS wDebFS2 wControl wManifest 1000 (by decide)).2⟩

/-- C3: every successful `build_deb` run yields an ar container of exactly
three members in the order debian-binary, control.tar, data.tar; the
debian-binary member's content is the four bytes "2.0\n", and control.tar
holds exactly two tar members in order: control (the rendered control
file) then md5sums. -/
theorem build_deb_member_structure :
    ∀ (fs : DebFS) (cd : List Nat) (files : FileManifest) (t : Nat)
      (members : List ArMember),
    buildDeb fs cd files t = Except.ok members →
    ∃ sums dt, makeMd5sums fs files.files = Except.ok sums ∧
      buildDataTar fs files.files t = Except.ok dt ∧
      members =
        [⟨"debian-binary", 0o644, t, 0, 0, ArData.raw [50, 46, 48, 10]⟩,
         ⟨"control.tar", 0o644, t, 0, 0, ArData.tarData
            [⟨"control", 0o644, t, cd.length, cd⟩, ⟨"md5sums", 0o644, t, sums.length, sums⟩]⟩,
         ⟨"data.tar", 0o644, t, 0, 0, ArData.tarData dt⟩] :=
  fun _ _ _ _ _ h => buildDeb_ok_inv h

set_option maxRecDepth 100000 in
theorem build_deb_member_structure_witness :
    buildDeb wDebFS wControl wManifest 1000 = Except.ok wMembers ∧
    (∃ sums dt, makeMd5sums wDebFS wManifest.files = Except.ok sums ∧
      buildDataTar wDebFS wManifest.files 1000 = Except.ok dt ∧
      wMembers =
        [⟨"debian-binary", 0o644, 1000, 0, 0, ArData.raw [50, 46, 48, 10]⟩,
         ⟨"control.tar", 0o644, 1000, 0, 0, ArData.tarData
            [⟨"control", 0o644, 1000, wControl.length, wControl⟩,
             ⟨"md5sums", 0o644, 1000, sums.length, sums⟩]⟩,
         ⟨"data.tar", 0o644, 1000, 0, 0, ArData.tarData dt⟩]) :=
  ⟨by decide, build_deb_member_structure wDebFS wControl wManifest 1000 wMembers (by decide)⟩

/-- C4: `build_data_tar` emits exactly one tar entry per manifest entry, in
the manifest's iteration (key) order, with archive path the manifest key
rewritten with a `./` prefixed form, mode `0o755` when the source file is
executable and `0o644` otherwise, and content the full byte content of
the source file; no directory entries appear (every emitted entry
corresponds one-to-one to a manifest file entry). -/
theorem build_data_tar_entries :
    ∀ (fs : DebFS) (files : List (String × RPath)) (t : Nat) (entries : List TarEntry),
    buildDataTar fs files t = Except.ok entries →
    List.Forall₂ (fun (kv : String × RPath) (e : TarEntry) =>
      e.path = "./" ++ kv.1 ∧
      e.mode = (if fs.isExec kv.2 then 0o755 else 0o644) ∧
      e.mtime = t ∧ fs.read kv.2 = some e.data ∧ e.size = e.data.length)
      files entries :=
  fun _ _ _ _ h => buildDataTar_ok_forall h

theorem build_data_tar_entries_witness :
    buildDataTar wDebFS wManifest.files 1000 =
      Except.ok [⟨"./a.txt", 0o644, 1000, 2, [104, 105]⟩] ∧
    List.Forall₂ (fun (kv : String × RPath) (e : TarEntry) =>
      e.path = "./" ++ kv.1 ∧
      e.mode = (if wDebFS.isExec kv.2 then 0o755 else 0o644) ∧
      e.mtime = 1000 ∧ wDebFS.read kv.2 = some e.data ∧ e.size = e.data.length)
      wManifest.files [⟨"./a.txt", 0o644, 1000, 2, [104, 105]⟩] :=
  ⟨by decide,
   build_data_tar_entries wDebFS wManifest.files 1000
     [⟨"./a.txt", 0o644, 1000, 2, [104, 105]⟩] (by decide)⟩

lemma mem_keys_fmInsert_self (k : String) (v : RPath) :
    ∀ l : List (String × RPath), k ∈ (fmInsert k v l).map Prod.fst := by
  intro l
  induction l with
  | nil => simp [fmInsert]
  | cons kv rest ih =>
    obtain ⟨k0, v0⟩ := kv
    by_cases h1 : k < k0
    · simp [fmInsert, h1]
    · by_cases h2 : k = k0
      · simp [fmInsert, h1, h2]
      · simp only [fmInsert, if_neg h1, if_neg h2, List.map_cons, List.mem_cons]
        exact Or.inr ih

lemma mem_keys_fmInsert_of_mem {a : String} (k : String) (v : RPath) :
    ∀ {l : List (String × RPath)}, a ∈ l.map Prod.fst →
      a ∈ (fmInsert k v l).map Prod.fst := by
  intro l
  induction l with
  | nil => intro h; cases h
  | cons kv rest ih =>
    intro h
    obtain ⟨k0, v0⟩ := kv
    simp only [List.map_cons, List.mem_cons] at h
    by_cases h1 : k < k0
    · simp only [fmInsert, if_pos h1, List.map_cons, List.mem_cons]
      rcases h with h | h
      · exact Or.inr (Or.inl h)
      · exact Or.inr (Or.inr h)
    · by_cases h2 : k = k0
      · simp only [fmInsert, if_neg h1, if_pos h2, List.map_cons, List.mem_cons]
        rcases h with h | h
        · exact Or.inl (h.trans h2.symm)
        · exact Or.inr h
      · simp only [fmInsert, if_neg h1, if_neg h2, List.map_cons, List.mem_cons]
        rcases h with h | h
        · exact Or.inl h
        · exact Or.inr (ih h)

lemma mem_fmInsert {kv : String × RPath} {k : String} {v : RPath} :
    ∀ {l : List (String × RPath)}, kv ∈ fmInsert k v l → kv = (k, v) ∨ kv ∈ l := by
  intro l
  induction l with
  | nil =>
    intro h
    simpa [fmInsert] using h
  | cons kv0 rest ih =>
    intro h
    obtain ⟨k0, v0⟩ := kv0
    by_cases h1 : k < k0
    · simp only [fmInsert, if_pos h1, List.mem_cons] at h
      rcases h with h | h | h
      · exact Or.inl h
      · exact Or.inr (by simp [h])
      · exact Or.inr (List.mem_cons_of_mem _ h)
    · by_cases h2 : k = k0
      · simp only [fmInsert, if_neg h1, if_pos h2, List.mem_cons] at h
        rcases h with h | h
        · exact Or.inl h
        · exact Or.inr (List.mem_cons_of_mem _ h)
      · simp only [fmInsert, if_neg h1, if_neg h2, List.mem_cons] at h
        rcases h with h | h
        · exact Or.inr (by simp [h])
        · rcases ih h with h3 | h3
          · exact Or.inl h3
          · exact Or.inr (List.mem_cons_of_mem _ h3)

lemma fmGo_ok_of_descendants {canon : RPath → Option RPath} {root : RPath}
    (pfxO : Option String) (hcanon : ∀ p, (canon p).isSome) :
    ∀ (ps : List RPath) (m0 : FileManifest),
    (∀ p ∈ ps, (stripRoot p root).isSome) →
    ∃ m, fmFromFilesGo canon root pfxO (ps.map SValue.sourceFile) m0 = FMOutcome.ok m ∧
      (∀ k ∈ m0.files.map Prod.fst, k ∈ m.files.map Prod.fst) ∧
      (∀ p ∈ ps, ∀ rel, stripRoot p root = some rel →
        (applyPfx pfxO rel).display ∈ m.files.map Prod.fst) := by
  intro ps
  induction ps with
  | nil =>
    intro m0 _
    exact ⟨m0, rfl, fun k hk => hk, fun p hp => absurd hp (List.not_mem_nil p)⟩
  | cons p rest ih =>
    intro m0 hdesc
    have hs := hdesc p (List.mem_cons_self _ _)
    cases hrel : stripRoot p root with
    | none => rw [hrel] at hs; cases hs
    | some rel =>
      cases hcp : canon p with
      | none => have := hcanon p; rw [hcp] at this; cases this
      | some cp =>
        obtain ⟨m, hm, hpres, hkeys⟩ :=
          ih ⟨fmInsert (applyPfx pfxO rel).display cp m0.files⟩
            (fun q hq => hdesc q (List.mem_cons_of_mem _ hq))
        refine ⟨m, ?_, ?_, ?_⟩
        · simpa [fmFromFilesGo, hrel, hcp] using hm
        · intro k hk
          exact hpres k (mem_keys_fmInsert_of_mem _ _ hk)
        · intro q hq rel2 hrel2
          rcases List.mem_cons.mp hq with rfl | hq2
          · rw [hrel] at hrel2
            injection hrel2 with h3
            subst h3
            exact hpres _ (mem_keys_fmInsert_self _ _ _)
          · exact hkeys q hq2 rel2 hrel2

lemma fmGo_err_of_outside {canon : RPath → Option RPath} {root : RPath}
    (pfxO : Option String) (hcanon : ∀ p, (canon p).isSome) :
    ∀ (ps : List RPath) (m0 : FileManifest),
    (∃ p ∈ ps, stripRoot p root = Option.none) →
    ∃ msg, fmFromFilesGo canon root pfxO (ps.map SValue.sourceFile) m0 =
      FMOutcome.err (VError.runtime "bad_relative_path" msg "relative_to") := by
  intro ps
  induction ps with
  | nil =>
    intro m0 h
    obtain ⟨p, hp, _⟩ := h
    cases hp
  | cons p rest ih =>
    intro m0 h
    cases hrel : stripRoot p root with
    | none =>
      exact ⟨p.display ++ " is not relative to " ++ root.display,
        by simp [fmFromFilesGo, hrel]⟩
    | some rel =>
      cases hcp : canon p with
      | none => have := hcanon p; rw [hcp] at this; cases this
      | some cp =>
        obtain ⟨q, hq, hqn⟩ := h
        rcases List.mem_cons.mp hq with rfl | hq2
        · rw [hrel] at hqn; cases hqn
        · obtain ⟨msg, hmsg⟩ :=
            ih ⟨fmInsert (applyPfx pfxO rel).display cp m0.files⟩ ⟨q, hq2, hqn⟩
          exact ⟨msg, by simpa [fmFromFilesGo, hrel, hcp] using hmsg⟩

lemma fmGo_panics_of_canon_failure {canon : RPath → Option RPath} {root : RPath}
    (pfxO : Option String) :
    ∀ (ps : List RPath) (m0 : FileManifest),
    (∀ p ∈ ps, (stripRoot p root).isSome) →
    (∃ p ∈ ps, canon p = Option.none) →
    fmFromFilesGo canon root pfxO (ps.map SValue.sourceFile) m0 =
      FMOutcome.panicked "called unwrap on a None value" := by
  intro ps
  induction ps with
  | nil =>
    intro m0 _ h
    obtain ⟨p, hp, _⟩ := h
    cases hp
  | cons p rest ih =>
    intro m0 hdesc h
    have hs := hdesc p (List.mem_cons_self _ _)
    cases hrel : stripRoot p root with
    | none => rw [hrel] at hs; cases hs
    | some rel =>
      cases hcp : canon p with
      | none => simp [fmFromFilesGo, hrel, hcp]
      | some cp =>
        obtain ⟨q, hq, hqn⟩ := h
        rcases List.mem_cons.mp hq with rfl | hq2
        · rw [hcp] at hqn; cases hqn
        · have := ih ⟨fmInsert (applyPfx pfxO rel).display cp m0.files⟩
            (fun r hr => hdesc r (List.mem_cons_of_mem _ hr)) ⟨q, hq2, hqn⟩
          simpa [fmFromFilesGo, hrel, hcp] using this

lemma fmGo_ok_values {canon : RPath → Option RPath} {root : RPath}
    {pfxO : Option String} :
    ∀ (xs : List SValue) (m0 : FileManifest) (m : FileManifest),
    fmFromFilesGo canon root pfxO xs m0 = FMOutcome.ok m →
    ∀ kv ∈ m.files, kv ∈ m0.files ∨ ∃ p, canon p = some kv.2 := by
  intro xs
  induction xs with
  | nil =>
    intro m0 m h kv hkv
    injection h with h2
    rw [← h2] at hkv
    exact Or.inl hkv
  | cons v rest ih =>
    intro m0 m h kv hkv
    cases v with
    | sourceFile p =>
      cases hrel : stripRoot p root with
      | none => simp only [fmFromFilesGo, hrel] at h; cases h
      | some rel =>
        cases hcp : canon p with
        | none => simp only [fmFromFilesGo, hrel, hcp] at h; cases h
        | some cp =>
          simp only [fmFromFilesGo, hrel, hcp] at h
          rcases ih _ m h kv hkv with h2 | h2
          · rcases mem_fmInsert h2 with h3 | h3
            · exact Or.inr ⟨p, by rw [h3, hcp]⟩
            · exact Or.inl h3
          · exact Or.inr h2
    | none => simp only [fmFromFilesGo] at h; cases h
    | str s => simp only [fmFromFilesGo] at h; cases h
    | int n => simp only [fmFromFilesGo] at h; cases h
    | list xs2 => simp only [fmFromFilesGo] at h; cases h

/-- C7: `file_manifest_from_files` fails with the invalid-relative-path
runtime error whenever some listed source file is not a descendant of the
relative root (a successful build never silently skips such a file), and
for descendant files the stripped suffix, with the optional prefix
path-joined in front, becomes an archive-relative key of the resulting
manifest. -/
theorem file_manifest_relative_path_contract :
    ∀ (canon : RPath → Option RPath) (cwd root pf : String) (ps : List RPath),
    (∀ p, (canon p).isSome) →
    ((∀ p ∈ ps, (stripRoot p (parsePath root)).isSome) →
      ∃ m, fileManifestFromFiles canon cwd (SValue.list (ps.map SValue.sourceFile))
            (SValue.str root) (SValue.str pf) = FMOutcome.ok m ∧
        ∀ p ∈ ps, ∀ rel, stripRoot p (parsePath root) = some rel →
          (joinPath (parsePath pf) rel).display ∈ m.files.map Prod.fst) ∧
    ((∃ p ∈ ps, stripRoot p (parsePath root) = Option.none) →
      ∃ msg, fileManifestFromFiles canon cwd (ps.map SValue.sourceFile |> SValue.list)
            (SValue.str root) (SValue.str pf) =
        FMOutcome.err (VError.runtime "bad_relative_path" msg "relative_to")) := by
  intro canon cwd root pf ps hcanon
  constructor
  · intro hdesc
    obtain ⟨m, hm, _, hkeys⟩ :=
      fmGo_ok_of_descendants (some pf) hcanon ps ⟨[]⟩ hdesc
    exact ⟨m, by simpa [fileManifestFromFiles] using hm, hkeys⟩
  · intro houtside
    obtain ⟨msg, hmsg⟩ :=
      fmGo_err_of_outside (some pf) hcanon ps ⟨[]⟩ houtside
    exact ⟨msg, by simpa [fileManifestFromFiles] using hmsg⟩

theorem file_manifest_relative_path_witness :
    ((∀ p, (canonId p).isSome) ∧
     (∀ p ∈ [w7Good], (stripRoot p (parsePath "/root")).isSome) ∧
     (∃ p ∈ [w7Outside], stripRoot p (parsePath "/root") = Option.none)) ∧
    (∃ m, fileManifestFromFiles canonId "/cwd" (SValue.list [SValue.sourceFile w7Good])
        (SValue.str "/root") (SValue.str "pkg") = FMOutcome.ok m ∧
      "pkg/a/b.txt" ∈ m.files.map Prod.fst) ∧
    (∃ msg, fileManifestFromFiles canonId "/cwd" (SValue.list [SValue.sourceFile w7Outside])
        (SValue.str "/root") (SValue.str "pkg") =
      FMOutcome.err (VError.runtime "bad_relative_path" msg "relative_to")) := by
  refine ⟨⟨fun p => rfl, by decide, by decide⟩, ?_, ?_⟩
  · obtain ⟨m, hm, hkeys⟩ :=
      (file_manifest_relative_path_contract canonId "/cwd" "/root" "pkg" [w7Good]
        (fun p => rfl)).1 (by decide)
    refine ⟨m, hm, ?_⟩
    have h := hkeys w7Good (List.mem_cons_self _ _) ⟨false, ["a", "b.txt"]⟩ (by decide)
    exact h
  · exact (file_manifest_relative_path_contract canonId "/cwd" "/root" "pkg" [w7Outside]
      (fun p => rfl)).2 ⟨w7Outside, List.mem_cons_self _ _, by decide⟩

/-- C9: if a listed source file's path cannot be canonicalized, manifest
construction panics (the source unwraps the canonicalization result)
rather than returning an error value; and a successfully built manifest
stores only source paths that are canonicalization results, i.e. paths
whose canonicalization succeeded at manifest-build time. -/
theorem file_manifest_canonicalize_panic :
    ∀ (canon : RPath → Option RPath) (cwd root pf : String) (ps : List RPath),
    ((∀ p ∈ ps, (stripRoot p (parsePath root)).isSome) →
     (∃ p ∈ ps, canon p = Option.none) →
     fileManifestFromFiles canon cwd (SValue.list (ps.map SValue.sourceFile))
       (SValue.str root) (SValue.str pf) = FMOutcome.panicked "called unwrap on a None value") ∧
    (∀ m, fileManifestFromFiles canon cwd (SValue.list (ps.map SValue.sourceFile))
       (SValue.str root) (SValue.str pf) = FMOutcome.ok m →
     ∀ kv ∈ m.files, ∃ p, canon p = some kv.2) := by
  intro canon cwd root pf ps
  constructor
  · intro hdesc hfail
    have := fmGo_panics_of_canon_failure (some pf) ps ⟨[]⟩ hdesc hfail
    simpa [fileManifestFromFiles] using this
  · intro m hm kv hkv
    have h2 : fmFromFilesGo canon (parsePath root) (some pf)
        (ps.map SValue.sourceFile) ⟨[]⟩ = FMOutcome.ok m := by
      simpa [fileManifestFromFiles] using hm
    rcases fmGo_ok_values _ _ _ h2 kv hkv with h3 | h3
    · cases h3
    · exact h3

theorem file_manifest_canonicalize_panic_witness :
    ((∀ p ∈ [w7Outside], (stripRoot p (parsePath "/")).isSome) ∧
     (∃ p ∈ [w7Outside], w9Canon p = Option.none)) ∧
    fileManifestFromFiles w9Canon "/cwd" (SValue.list [SValue.sourceFile w7Outside])
      (SValue.str "/") (SValue.str "pkg") =
      FMOutcome.panicked "called unwrap on a None value" ∧
    (∀ kv ∈ (⟨[("pkg/a/b.txt", w7Good)]⟩ : FileManifest).files, ∃ p, w9Canon p = some kv.2) :=
  ⟨⟨by decide, by decide⟩,
   (file_manifest_canonicalize_panic w9Canon "/cwd" "/" "pkg" [w7Outside]).1
     (by decide) (by decide),
   (file_manifest_canonicalize_panic w9Canon "/cwd" "/root" "pkg" [w7Good]).2
     ⟨[("pkg/a/b.txt", w7Good)]⟩ (by decide)⟩

lemma foldl_insert_mem (p : RPath) :
    ∀ (l : List RPath) (acc : Finset RPath),
    (p ∈ l.foldl (fun a q => insert q a) acc) ↔ (p ∈ acc ∨ p ∈ l) := by
  intro l
  induction l with
  | nil => intro acc; simp
  | cons q rest ih =>
    intro acc
    simp only [List.foldl_cons, ih, Finset.mem_insert, List.mem_cons]
    tauto

lemma foldl_erase_mem (p : RPath) :
    ∀ (l : List RPath) (acc : Finset RPath),
    (p ∈ l.foldl (fun a q => Finset.erase a q) acc) ↔ (p ∈ acc ∧ p ∉ l) := by
  intro l
  induction l with
  | nil => intro acc; simp
  | cons q rest ih =>
    intro acc
    simp only [List.foldl_cons, ih, Finset.mem_erase, List.mem_cons]
    tauto

lemma globInsertAll_ok {fs : GlobFS} {cwd : String} :
    ∀ (pats : List String) (acc : Finset RPath) (S : Finset RPath),
    globInsertAll fs cwd (pats.map SValue.str) acc = Except.ok S →
    ∀ p, (p ∈ S) ↔ (p ∈ acc ∨ ∃ pat ∈ pats, p ∈ evaluateGlob fs cwd pat) := by
  intro pats
  induction pats with
  | nil =>
    intro acc S h p
    injection h with h2
    subst h2
    simp
  | cons pat rest ih =>
    intro acc S h p
    simp only [List.map_cons, globInsertAll] at h
    rw [ih _ _ h p, foldl_insert_mem]
    simp only [List.mem_cons]
    constructor
    · rintro ((h2 | h2) | ⟨q, hq, h2⟩)
      · exact Or.inl h2
      · exact Or.inr ⟨pat, Or.inl rfl, h2⟩
      · exact Or.inr ⟨q, Or.inr hq, h2⟩
    · rintro (h2 | ⟨q, (rfl | hq), h2⟩)
      · exact Or.inl (Or.inl h2)
      · exact Or.inl (Or.inr h2)
      · exact Or.inr ⟨q, hq, h2⟩

lemma globRemoveAll_ok {fs : GlobFS} {cwd : String} :
    ∀ (pats : List String) (acc : Finset RPath) (S : Finset RPath),
    globRemoveAll fs cwd (pats.map SValue.str) acc = Except.ok S →
    ∀ p, (p ∈ S) ↔ (p ∈ acc ∧ ¬ ∃ pat ∈ pats, p ∈ evaluateGlob fs cwd pat) := by
  intro pats
  induction pats with
  | nil =>
    intro acc S h p
    injection h with h2
    subst h2
    simp
  | cons pat rest ih =>
    intro acc S h p
    simp only [List.map_cons, globRemoveAll] at h
    rw [ih _ _ h p, foldl_erase_mem]
    simp only [List.mem_cons]
    constructor
    · rintro ⟨⟨h2, h3⟩, h4⟩
      refine ⟨h2, ?_⟩
      rintro ⟨q, (rfl | hq), h5⟩
      · exact h3 h5
      · exact h4 ⟨q, hq, h5⟩
    · rintro ⟨h2, h3⟩
      refine ⟨⟨h2, fun h5 => h3 ⟨pat, Or.inl rfl, h5⟩⟩, ?_⟩
      rintro ⟨q, hq, h5⟩
      exact h3 ⟨q, Or.inr hq, h5⟩

/-- C8: glob resolution expands all include patterns first and unions their
matches into a deduplicated working set keeping only regular files, then
expands all exclude patterns and subtracts their matches from that set
(union-then-subtract, never per-pattern interleaving); a pattern beginning
with `/` is searched as given, any other is resolved relative to the
working directory. -/
theorem resolve_include_exclude_set_semantics :
    ∀ (fs : GlobFS) (cwd : String) (incs excs : List String) (S : Finset RPath),
    resolveIncludeExclude fs cwd (SValue.list (incs.map SValue.str))
      (SValue.list (excs.map SValue.str)) = Except.ok S →
    (∀ p, (p ∈ S) ↔
      ((∃ pat ∈ incs, p ∈ evaluateGlob fs cwd pat) ∧
       ¬ ∃ pat ∈ excs, p ∈ evaluateGlob fs cwd pat)) ∧
    (∀ pat, evaluateGlob fs cwd pat =
      (fs.glob (if startsWithSlash pat = true then pat else cwd ++ "/" ++ pat)).filter
        fs.isFile) := by
  intro fs cwd incs excs S h
  constructor
  · intro p
    simp only [resolveIncludeExclude] at h
    cases hi : globInsertAll fs cwd (incs.map SValue.str) ∅ with
    | error e => rw [hi] at h; cases h
    | ok acc =>
      rw [hi] at h
      rw [globRemoveAll_ok excs acc S h p, globInsertAll_ok incs ∅ acc hi p]
      simp
  · intro pat
    rfl

theorem resolve_include_exclude_witness :
    resolveIncludeExclude w8FS "/cwd" (SValue.list [SValue.str "*.txt"])
      (SValue.list [SValue.str "skip.txt"]) = Except.ok {w8aP, w8bP} ∧
    ((w8aP ∈ ({w8aP, w8bP} : Finset RPath)) ↔
      ((∃ pat ∈ ["*.txt"], w8aP ∈ evaluateGlob w8FS "/cwd" pat) ∧
       ¬ ∃ pat ∈ ["skip.txt"], w8aP ∈ evaluateGlob w8FS "/cwd" pat)) ∧
    ((w8skipP ∈ ({w8aP, w8bP} : Finset RPath)) ↔
      ((∃ pat ∈ ["*.txt"], w8skipP ∈ evaluateGlob w8FS "/cwd" pat) ∧
       ¬ ∃ pat ∈ ["skip.txt"], w8skipP ∈ evaluateGlob w8FS "/cwd" pat)) :=
  ⟨by decide,
   ((resolve_include_exclude_set_semantics w8FS "/cwd" ["*.txt"] ["skip.txt"]
      {w8aP, w8bP} (by decide)).1 w8aP),
   ((resolve_include_exclude_set_semantics w8FS "/cwd" ["*.txt"] ["skip.txt"]
      {w8aP, w8bP} (by decide)).1 w8skipP)⟩

end Tugger

